import Mathlib

/-!
Verification of the S3 URI parsing/construction and prefix-based
upload/copy planning logic of `braket/aws/aws_session.py`.

Strings are modelled as `List Char`.  The two regular expressions of
`AwsSession.parse_s3_uri`,

  `^https://([^./]+)\.[sS]3\.[^/]+/(.+)$`   (virtual-hosted style)
  `^[sS]3://([^./]+)/(.+)$`                 (path style)

are compiled by hand into deterministic matchers.  Both regexes are
deterministic despite backtracking because every quantified class is
followed by a character that the class excludes, so the greedy maximal
run is the only possible match.  Python semantics are preserved:
`.` does not match a newline, a negated class such as `[^/]` does match
a newline, and `$` matches at the end of the string or just before a
single trailing newline.
-/

/-- Strings of the model: lists of characters. -/
abbrev Str := List Char

/-- Character class `[^./]` of both bucket groups. -/
def bucketChar (c : Char) : Bool := c != '.' && c != '/'

/-- Embeds the regex fragment `(.+)$` with Python semantics: `.` matches
any character except a newline, and `$` matches at the end of the string
or just before one final trailing newline.  Returns the captured group. -/
def matchKeyDollar (r : Str) : Option Str :=
  if (r.takeWhile (fun d => d != '\n')).isEmpty then none
  else
    match r.dropWhile (fun d => d != '\n') with
    | [] => some (r.takeWhile (fun d => d != '\n'))
    | ['\n'] => some (r.takeWhile (fun d => d != '\n'))
    | _ => none

/-- Embeds `re.match(r"^https://([^./]+)\.[sS]3\.[^/]+/(.+)$", s)`,
returning the two captured groups (bucket, key). -/
def matchVirtualHosted (s : Str) : Option (Str × Str) :=
  match s with
  | 'h' :: 't' :: 't' :: 'p' :: 's' :: ':' :: '/' :: '/' :: r1 =>
    if (r1.takeWhile bucketChar).isEmpty then none
    else
      match r1.dropWhile bucketChar with
      | '.' :: c :: '3' :: '.' :: r3 =>
        if c == 's' || c == 'S' then
          if (r3.takeWhile (fun d => d != '/')).isEmpty then none
          else
            match r3.dropWhile (fun d => d != '/') with
            | '/' :: r4 =>
              match matchKeyDollar r4 with
              | some k => some (r1.takeWhile bucketChar, k)
              | none => none
            | _ => none
        else none
      | _ => none
  | _ => none

/-- Embeds `re.match(r"^[sS]3://([^./]+)/(.+)$", s)`, returning the two
captured groups (bucket, key). -/
def matchPathStyle (s : Str) : Option (Str × Str) :=
  match s with
  | c :: '3' :: ':' :: '/' :: '/' :: r1 =>
    if c == 's' || c == 'S' then
      if (r1.takeWhile bucketChar).isEmpty then none
      else
        match r1.dropWhile bucketChar with
        | '/' :: r2 =>
          match matchKeyDollar r2 with
          | some k => some (r1.takeWhile bucketChar, k)
          | none => none
        | _ => none
    else none
  | _ => none

/-- Embeds `AwsSession.parse_s3_uri` (aws_session.py lines 699-725): the
first regex is tried, then the second (`or` of the two `re.match` calls);
on failure a `ValueError` carrying the message
`"Not a valid S3 uri: {s3_uri}"` is raised, modelled as `Except.error`. -/
def parse_s3_uri (s3_uri : Str) : Except Str (Str × Str) :=
  match matchVirtualHosted s3_uri with
  | some bk => Except.ok bk
  | none =>
    match matchPathStyle s3_uri with
    | some bk => Except.ok bk
    | none => Except.error ("Not a valid S3 uri: ".data ++ s3_uri)

/-- Embeds `AwsSession.is_s3_uri` (lines 683-697): calls `parse_s3_uri`,
returns `False` when it raises `ValueError` and `True` otherwise. -/
def is_s3_uri (s : Str) : Bool :=
  match parse_s3_uri s with
  | Except.ok _ => true
  | Except.error _ => false

/-- Embeds Python `"/".join(dirs)` (the separator is passed in). -/
def pyJoin (sep : Str) : List Str → Str
  | [] => []
  | [x] => x
  | x :: y :: rest => x ++ sep ++ pyJoin sep (y :: rest)

/-- Embeds `AwsSession.construct_s3_uri` (lines 727-744): raises
`ValueError` with message `"Not a valid S3 location: s3://{bucket}"`
when no directory segment is given, else returns the f-string
`f"s3://{bucket}/{'/'.join(dirs)}"`. -/
def construct_s3_uri (bucket : Str) (dirs : List Str) : Except Str Str :=
  if dirs.isEmpty then
    Except.error ("Not a valid S3 location: s3://".data ++ bucket)
  else
    Except.ok ("s3://".data ++ bucket ++ '/' :: pyJoin ['/'] dirs)

/-- Embeds Python `s.replace(old, new, 1)` (replace the leftmost
occurrence only), as used at aws_session.py line 506. -/
def pyReplaceFirst (old new : Str) : Str → Str
  | [] => if old.isEmpty then new else []
  | c :: cs =>
    if old.isPrefixOf (c :: cs) then new ++ (c :: cs).drop old.length
    else c :: pyReplaceFirst old new cs

/-- Fuelled worker for Python `s.replace(old, new)` with a non-empty
pattern: replaces every occurrence, scanning left to right without
overlap.  The fuel is the length of the string, which suffices because
each step consumes at least one character. -/
def pyReplaceAllGo (old new : Str) : Nat → Str → Str
  | _, [] => []
  | 0, s => s
  | fuel + 1, c :: cs =>
    if !old.isEmpty && old.isPrefixOf (c :: cs) then
      new ++ pyReplaceAllGo old new fuel ((c :: cs).drop old.length)
    else c :: pyReplaceAllGo old new fuel cs

/-- Embeds Python `s.replace(old, new)` (no count argument: every
non-overlapping occurrence is replaced, left to right).  With an empty
pattern Python inserts `new` before every character and at the end. -/
def pyStrReplace (s old new : Str) : Str :=
  if old.isEmpty then new ++ (s.map (fun c => c :: new)).flatten
  else pyReplaceAllGo old new s.length s

/-- Embeds line 444 of `AwsSession.upload_local_data`:
`str(file.as_posix()).replace(str(Path(local_prefix).as_posix()), s3_prefix)`.
The local prefix and the file path are taken already in POSIX
forward-slash form. -/
def uploadRemoteUri (localPre s3Pre filePosix : Str) : Str :=
  pyStrReplace filePosix localPre s3Pre

/-- Embeds line 506 of `AwsSession.copy_s3_directory`:
`key.replace(source_prefix, destination_prefix, 1)`. -/
def copyDestKey (srcPre dstPre key : Str) : Str :=
  pyReplaceFirst srcPre dstPre key

/-- The (source key, destination key) pairs produced by the loop of
`AwsSession.copy_s3_directory` (lines 499-507) over the listed keys. -/
def copy_s3_directory_plan (srcPre dstPre : Str) (keys : List Str) :
    List (Str × Str) :=
  keys.map (fun k => (k, copyDestKey srcPre dstPre k))

/-- External operations a session method can perform, recorded as a
trace: parsing a URI, listing keys of a bucket/prefix pair, and copying
a source bucket/key to a destination bucket/key. -/
inductive S3Op where
  | parseUri : Str → S3Op
  | listOp : Str → Str → S3Op
  | copyObj : Str → Str → Str → Str → S3Op
deriving DecidableEq

/-- Embeds `AwsSession.copy_s3_object` (lines 457-478) as a trace of the
operations it performs: it returns immediately (an empty trace) when the
two URI strings are equal, else parses both URIs and issues one copy. -/
def copy_s3_object (src dst : Str) : Except Str (List S3Op) :=
  if src = dst then Except.ok []
  else
    match parse_s3_uri src with
    | Except.error e => Except.error e
    | Except.ok (sb, sk) =>
      match parse_s3_uri dst with
      | Except.error e => Except.error e
      | Except.ok (db, dk) =>
        Except.ok [S3Op.parseUri src, S3Op.parseUri dst,
          S3Op.copyObj sb sk db dk]

/-- Embeds `AwsSession.copy_s3_directory` (lines 480-507) as a trace,
with the object lister passed in as a collaborator: it returns
immediately (an empty trace) when the two URI strings are equal, else
parses both URIs, lists the source keys and issues one copy per key with
the destination key of `copy_s3_directory_plan`. -/
def copy_s3_directory (lister : Str → Str → List Str) (src dst : Str) :
    Except Str (List S3Op) :=
  if src = dst then Except.ok []
  else
    match parse_s3_uri src with
    | Except.error e => Except.error e
    | Except.ok (sb, sp) =>
      match parse_s3_uri dst with
      | Except.error e => Except.error e
      | Except.ok (db, dp) =>
        Except.ok ([S3Op.parseUri src, S3Op.parseUri dst, S3Op.listOp sb sp]
          ++ (copy_s3_directory_plan sp dp (lister sb sp)).map
              (fun pr => S3Op.copyObj sb pr.1 db pr.2))

/-- An entry of a filesystem listing: a path given as its segments, and
whether it is a regular file (`Path.is_file`). -/
structure FsEntry where
  path : List Str
  isFile : Bool
deriving DecidableEq

/-- Glob pattern `f"{relative_prefix}*"` of aws_session.py line 439, for
a relative, slash-free prefix: matches exactly the top-level entries
whose single segment starts with the prefix (`*` does not cross `/`). -/
def globStarMatch (p : Str) (path : List Str) : Bool :=
  match path with
  | [seg] => p.isPrefixOf seg
  | _ => false

/-- Glob pattern `f"{relative_prefix}*/**/*"` of aws_session.py line 441,
for a relative, slash-free prefix: matches exactly the entries of depth
at least two whose first segment starts with the prefix (`**` matches
zero or more intermediate directories). -/
def globStarDeepMatch (p : Str) (path : List Str) : Bool :=
  match path with
  | seg :: _ :: _ => p.isPrefixOf seg
  | _ => false

/-- The paths selected by `AwsSession.upload_local_data` (lines 437-443)
over a filesystem listing, for a relative slash-free prefix: the chain
of the two glob results, keeping regular files only. -/
def upload_local_data_selection (p : Str) (listing : List FsEntry) :
    List (List Str) :=
  ((listing.filter (fun e => e.isFile && globStarMatch p e.path)).map
      (fun e => e.path))
    ++ ((listing.filter (fun e => e.isFile && globStarDeepMatch p e.path)).map
      (fun e => e.path))

example : parse_s3_uri "s3://my-bucket/my/key".data
    = Except.ok ("my-bucket".data, "my/key".data) := by rfl

example : parse_s3_uri "https://my-bucket.s3.us-west-2.amazonaws.com/my/key".data
    = Except.ok ("my-bucket".data, "my/key".data) := by rfl

example : parse_s3_uri "not-a-uri".data
    = Except.error "Not a valid S3 uri: not-a-uri".data := by rfl

example : parse_s3_uri "s3://a.b/x/y".data
    = Except.error "Not a valid S3 uri: s3://a.b/x/y".data := by rfl

/-! Helper lemmas about `takeWhile` and `dropWhile` on a decomposed list. -/

theorem takeWhile_append_of_sat {p : Char → Bool} :
    ∀ (xs : Str) {y : Char} (ys : Str), (∀ x ∈ xs, p x = true) → p y = false →
      (xs ++ y :: ys).takeWhile p = xs ∧ (xs ++ y :: ys).dropWhile p = y :: ys
  | [], y, ys, _, hy => by
    simp [List.takeWhile_cons, List.dropWhile_cons, hy]
  | x :: xs, y, ys, hxs, hy => by
    have hx : p x = true := hxs x (by simp)
    have ih := takeWhile_append_of_sat xs ys (fun a ha => hxs a (by simp [ha])) hy
    simp [List.takeWhile_cons, List.dropWhile_cons, hx, ih.1, ih.2]

/-- C3: `is_s3_uri` returns `true` exactly when `parse_s3_uri` succeeds
(returns a bucket/key pair instead of raising `ValueError`); being a
total boolean function of the embedding, it raises on no input. -/
theorem c3_is_s3_uri_iff_parse_ok (s : Str) :
    is_s3_uri s = true ↔ ∃ r, parse_s3_uri s = Except.ok r := by
  unfold is_s3_uri
  cases h : parse_s3_uri s <;> simp

/-- C6: `construct_s3_uri` raises `ValueError` (with the message
`"Not a valid S3 location: s3://{bucket}"`) exactly when the segment
sequence is empty, and for a non-empty sequence returns exactly
`"s3://" + bucket + "/" + segments joined by "/"`. -/
theorem c6_construct_spec (bucket : Str) (dirs : List Str) :
    (construct_s3_uri bucket dirs
        = Except.error ("Not a valid S3 location: s3://".data ++ bucket)
      ↔ dirs = [])
    ∧ (dirs ≠ [] →
      construct_s3_uri bucket dirs
        = Except.ok ("s3://".data ++ bucket ++ '/' :: pyJoin ['/'] dirs)) := by
  unfold construct_s3_uri
  cases dirs <;> simp

/-- Witness for C6 at a concrete input. -/
theorem c6_construct_spec_witness :
    construct_s3_uri "b".data ["x".data] = Except.ok "s3://b/x".data := by
  have h := (c6_construct_spec "b".data ["x".data]).2 (by simp)
  exact h

/-- C9: when the source and destination URI strings are identical,
`copy_s3_object` and `copy_s3_directory` return at once with an empty
operation trace: no parse, no listing, no copy, for any lister. -/
theorem c9_copy_identical_noop (lister : Str → Str → List Str) (uri : Str) :
    copy_s3_object uri uri = Except.ok []
    ∧ copy_s3_directory lister uri uri = Except.ok [] := by
  constructor <;> simp [copy_s3_object, copy_s3_directory]

/-- C10: `construct_s3_uri` validates nothing: any bucket (empty, with
dots, slashes or spaces) and any non-empty segment list succeed and
yield the interpolated string; and the result can then be rejected by
`parse_s3_uri`, e.g. for the dotted bucket `"a.b"`. -/
theorem c10_construct_no_validation :
    (∀ (bucket : Str) (dirs : List Str), dirs ≠ [] →
      construct_s3_uri bucket dirs
        = Except.ok ("s3://".data ++ bucket ++ '/' :: pyJoin ['/'] dirs))
    ∧ construct_s3_uri "a.b".data ["k".data] = Except.ok "s3://a.b/k".data
    ∧ parse_s3_uri "s3://a.b/k".data
        = Except.error "Not a valid S3 uri: s3://a.b/k".data := by
  refine ⟨?_, by rfl, by rfl⟩
  intro bucket dirs h
  unfold construct_s3_uri
  cases dirs with
  | nil => exact absurd rfl h
  | cons d ds => rfl

/-- Witness for C10 at a concrete input whose bucket holds a dot, a
slash and a space and whose segments hold a slash and an empty string. -/
theorem c10_construct_no_validation_witness :
    construct_s3_uri "a.b c/".data ["x/y".data, "".data]
      = Except.ok "s3://a.b c//x/y/".data := by
  have h := c10_construct_no_validation.1 "a.b c/".data ["x/y".data, "".data]
    (by simp)
  exact h

/-- The filesystem listing of C7: six regular files and the three
directories containing them. -/
def c7Listing : List FsEntry :=
  [⟨["input.csv".data], true⟩,
   ⟨["input-2.csv".data], true⟩,
   ⟨["input".data], false⟩,
   ⟨["input".data, "data.txt".data], true⟩,
   ⟨["input-dir".data], false⟩,
   ⟨["input-dir".data, "data.csv".data], true⟩,
   ⟨["my-input.csv".data], true⟩,
   ⟨["my-dir".data], false⟩,
   ⟨["my-dir".data, "input.csv".data], true⟩]

/-- C7: over the example file set with local prefix `"input"`, the
selection of `upload_local_data` (union of the two glob classes,
regular files only) is exactly the four files `input.csv`,
`input-2.csv`, `input/data.txt` and `input-dir/data.csv`; in particular
`my-input.csv` and `my-dir/input.csv`, where the prefix occurs only as
a non-leading substring of a path segment, are not selected. -/
theorem c7_upload_selection_example :
    upload_local_data_selection "input".data c7Listing
      = [["input.csv".data], ["input-2.csv".data],
         ["input".data, "data.txt".data],
         ["input-dir".data, "data.csv".data]]
    ∧ ["my-input.csv".data] ∉ upload_local_data_selection "input".data c7Listing
    ∧ ["my-dir".data, "input.csv".data]
        ∉ upload_local_data_selection "input".data c7Listing := by
  refine ⟨by rfl, by decide, by decide⟩

/-- Inversion for `matchKeyDollar`: a successful key capture is the
maximal newline-free prefix and is non-empty. -/
theorem matchKeyDollar_some {r k : Str} (h : matchKeyDollar r = some k) :
    k = r.takeWhile (fun d => d != '\n') ∧ k ≠ [] := by
  unfold matchKeyDollar at h
  split_ifs at h with hp
  have hk : k = r.takeWhile (fun d => d != '\n') := by
    split at h
    · exact (Option.some_inj.mp h).symm
    · exact (Option.some_inj.mp h).symm
    · cases h
  refine ⟨hk, ?_⟩
  rw [hk]
  simpa using hp

/-- Inversion for `matchPathStyle`: a successful parse yields a
non-empty bucket of characters in `[^./]` and a non-empty key. -/
theorem matchPathStyle_some {s b k : Str} (h : matchPathStyle s = some (b, k)) :
    b ≠ [] ∧ (∀ c ∈ b, bucketChar c = true) ∧ k ≠ [] := by
  unfold matchPathStyle at h
  split at h
  · rename_i c r1
    split_ifs at h with hc hb
    split at h
    · rename_i r2 heq2
      split at h
      · rename_i k' hkey
        simp only [Option.some_inj, Prod.mk.injEq] at h
        obtain ⟨hb', hk'⟩ := h
        subst hb'
        subst hk'
        refine ⟨by simpa using hb, fun c hc => List.mem_takeWhile_imp hc, ?_⟩
        exact (matchKeyDollar_some hkey).2
      · cases h
    · cases h
  · cases h

/-- Inversion for `matchVirtualHosted`: a successful parse yields a
non-empty bucket of characters in `[^./]` and a non-empty key. -/
theorem matchVirtualHosted_some {s b k : Str}
    (h : matchVirtualHosted s = some (b, k)) :
    b ≠ [] ∧ (∀ c ∈ b, bucketChar c = true) ∧ k ≠ [] := by
  unfold matchVirtualHosted at h
  split at h
  · rename_i r1
    split_ifs at h with hb
    split at h
    · rename_i c r3 heq2
      split_ifs at h with hc hr
      split at h
      · rename_i r4 heq3
        split at h
        · rename_i k' hkey
          simp only [Option.some_inj, Prod.mk.injEq] at h
          obtain ⟨hb', hk'⟩ := h
          subst hb'
          subst hk'
          refine ⟨by simpa using hb, fun c hc => List.mem_takeWhile_imp hc, ?_⟩
          exact (matchKeyDollar_some hkey).2
        · cases h
      · cases h
    · cases h
  · cases h

/-- C4: `parse_s3_uri` accepts both URI forms and normalizes them, as on
the two documented examples; and every successful parse returns a
non-empty bucket containing no slash together with a non-empty key. -/
theorem c4_parse_forms_and_invariant :
    parse_s3_uri "s3://my-bucket/my/key".data
      = Except.ok ("my-bucket".data, "my/key".data)
    ∧ parse_s3_uri "https://my-bucket.s3.us-west-2.amazonaws.com/my/key".data
      = Except.ok ("my-bucket".data, "my/key".data)
    ∧ ∀ (s b k : Str), parse_s3_uri s = Except.ok (b, k) →
        b ≠ [] ∧ '/' ∉ b ∧ k ≠ [] := by
  refine ⟨by rfl, by rfl, ?_⟩
  intro s b k h
  have main : b ≠ [] ∧ (∀ c ∈ b, bucketChar c = true) ∧ k ≠ [] := by
    unfold parse_s3_uri at h
    split at h
    · rename_i bk hv
      cases bk with
      | mk b' k' =>
        simp only [Except.ok.injEq, Prod.mk.injEq] at h
        obtain ⟨hb', hk'⟩ := h
        subst hb'
        subst hk'
        exact matchVirtualHosted_some hv
    · split at h
      · rename_i bk hp
        cases bk with
        | mk b' k' =>
          simp only [Except.ok.injEq, Prod.mk.injEq] at h
          obtain ⟨hb', hk'⟩ := h
          subst hb'
          subst hk'
          exact matchPathStyle_some hp
      · cases h
  refine ⟨main.1, ?_, main.2.2⟩
  intro hmem
  have := main.2.1 '/' hmem
  simp [bucketChar] at this

/-- Replacing the first occurrence: when no occurrence of `old` starts
inside the segment `a`, Python `(a ++ old ++ b).replace(old, new, 1)`
rewrites exactly the exhibited occurrence and leaves `b` unchanged. -/
theorem pyReplaceFirst_decomp (old new : Str) :
    ∀ (a b : Str),
      (∀ i, i < a.length → old.isPrefixOf ((a ++ old ++ b).drop i) = false) →
      pyReplaceFirst old new (a ++ old ++ b) = a ++ new ++ b := by
  intro a
  induction a with
  | nil =>
    intro b _
    simp only [List.nil_append]
    cases hol : old with
    | nil =>
      cases b with
      | nil => simp [pyReplaceFirst]
      | cons c cs => simp [pyReplaceFirst]
    | cons o os =>
      rw [List.cons_append]
      simp only [pyReplaceFirst]
      have hpre : (o :: os).isPrefixOf (o :: (os ++ b)) = true := by
        rw [show o :: (os ++ b) = (o :: os) ++ b from rfl]
        exact List.isPrefixOf_iff_prefix.mpr (List.prefix_append _ _)
      rw [if_pos hpre]
      rw [show o :: (os ++ b) = (o :: os) ++ b from rfl, List.drop_left]
  | cons x a' ih =>
    intro b h
    have h0 : old.isPrefixOf (x :: (a' ++ old ++ b)) = false := by
      simpa using h 0 (by simp)
    have h' : ∀ i, i < a'.length →
        old.isPrefixOf ((a' ++ old ++ b).drop i) = false := by
      intro i hi
      have := h (i + 1) (by simpa using Nat.succ_lt_succ hi)
      simpa [List.drop_succ_cons] using this
    calc pyReplaceFirst old new ((x :: a') ++ old ++ b)
        = pyReplaceFirst old new (x :: (a' ++ old ++ b)) := by simp
      _ = x :: pyReplaceFirst old new (a' ++ old ++ b) := by
            simp only [pyReplaceFirst, h0]
            simp
      _ = x :: (a' ++ new ++ b) := by rw [ih b h']
      _ = (x :: a') ++ new ++ b := by simp

/-- C8: for every key the object lister returns, `copy_s3_directory`
computes the destination key by replacing exactly the first occurrence
of the source prefix with the destination prefix; later occurrences of
the source prefix (inside `b`) are left unchanged. -/
theorem c8_copy_directory_first_occurrence (srcPre dstPre a b : Str)
    (h : ∀ i, i < a.length →
      srcPre.isPrefixOf ((a ++ srcPre ++ b).drop i) = false) :
    ∀ keys : List Str, (a ++ srcPre ++ b) ∈ keys →
      (a ++ srcPre ++ b, a ++ dstPre ++ b)
        ∈ copy_s3_directory_plan srcPre dstPre keys := by
  intro keys hk
  unfold copy_s3_directory_plan copyDestKey
  refine List.mem_map.mpr ⟨a ++ srcPre ++ b, hk, ?_⟩
  rw [pyReplaceFirst_decomp srcPre dstPre a b h]

/-- Witness for C8: the key `x/dir/q/dir/f` under source prefix `dir/`
maps to `x/D/q/dir/f`; the second `dir/` is untouched. -/
theorem c8_copy_directory_first_occurrence_witness :
    ("x/dir/q/dir/f".data, "x/D/q/dir/f".data)
      ∈ copy_s3_directory_plan "dir/".data "D/".data ["x/dir/q/dir/f".data] := by
  have h := c8_copy_directory_first_occurrence "dir/".data "D/".data
    "x/".data "q/dir/f".data (by decide) ["x/dir/q/dir/f".data] (by decide)
  exact h

/-- The fuelled replace-all worker does not depend on the fuel once the
fuel covers the length of the string. -/
theorem pyReplaceAllGo_fuel (old new : Str) :
    ∀ (f1 : Nat) (s : Str) (f2 : Nat), s.length ≤ f1 → s.length ≤ f2 →
      pyReplaceAllGo old new f1 s = pyReplaceAllGo old new f2 s := by
  intro f1
  induction f1 with
  | zero =>
    intro s f2 h1 _
    have hs : s = [] := List.length_eq_zero.mp (Nat.le_zero.mp h1)
    subst hs
    cases f2 <;> rfl
  | succ f1' ih =>
    intro s f2 h1 h2
    cases s with
    | nil => cases f2 <;> rfl
    | cons c cs =>
      cases f2 with
      | zero => simp at h2
      | succ f2' =>
        simp only [pyReplaceAllGo]
        by_cases hcond : (!old.isEmpty && old.isPrefixOf (c :: cs)) = true
        · simp only [hcond, if_true]
          have holen : 1 ≤ old.length := by
            rcases old with _ | ⟨o, os⟩
            · simp at hcond
            · simp
          have hdlen : ((c :: cs).drop old.length).length ≤ f1' := by
            rw [List.length_drop]
            omega
          have hdlen2 : ((c :: cs).drop old.length).length ≤ f2' := by
            rw [List.length_drop]
            omega
          rw [ih _ f2' hdlen (by omega)]
        · simp only [Bool.not_eq_true] at hcond
          simp only [hcond, Bool.false_eq_true, if_false]
          rw [ih cs f2' (by simpa using Nat.le_of_succ_le_succ h1)
            (by simpa using Nat.le_of_succ_le_succ h2)]

/-- Replace-all decomposition: when `old` is non-empty and no occurrence
of `old` starts inside the segment `a`, Python
`(a ++ old ++ b).replace(old, new)` rewrites the exhibited occurrence
and then keeps replacing inside `b`. -/
theorem pyReplaceAllGo_decomp (old new : Str) (hold : old ≠ []) :
    ∀ (a b : Str) (fuel : Nat), (a ++ old ++ b).length ≤ fuel →
      (∀ i, i < a.length → old.isPrefixOf ((a ++ old ++ b).drop i) = false) →
      pyReplaceAllGo old new fuel (a ++ old ++ b)
        = a ++ new ++ pyReplaceAllGo old new b.length b := by
  intro a
  induction a with
  | nil =>
    intro b fuel hf _
    rcases old with _ | ⟨o, os⟩
    · exact absurd rfl hold
    · simp only [List.nil_append] at hf ⊢
      cases fuel with
      | zero => simp at hf
      | succ f =>
        rw [List.cons_append]
        simp only [pyReplaceAllGo]
        have hcond : (!(o :: os).isEmpty
            && (o :: os).isPrefixOf (o :: (os ++ b))) = true := by
          rw [show o :: (os ++ b) = (o :: os) ++ b from rfl]
          simp [List.isPrefixOf_iff_prefix.mpr (List.prefix_append _ _)]
        simp only [hcond, if_true]
        rw [show o :: (os ++ b) = (o :: os) ++ b from rfl, List.drop_left]
        have hbf : b.length ≤ f := by
          have := hf
          simp only [List.cons_append, List.length_cons, List.length_append]
            at this
          omega
        rw [pyReplaceAllGo_fuel (o :: os) new f b b.length hbf (Nat.le_refl _)]
  | cons x a' ih =>
    intro b fuel hf h
    cases fuel with
    | zero => simp at hf
    | succ f =>
      have h0 : old.isPrefixOf (x :: (a' ++ old ++ b)) = false := by
        simpa using h 0 (by simp)
      have h' : ∀ i, i < a'.length →
          old.isPrefixOf ((a' ++ old ++ b).drop i) = false := by
        intro i hi
        have := h (i + 1) (by simpa using Nat.succ_lt_succ hi)
        simpa [List.drop_succ_cons] using this
      have hf' : (a' ++ old ++ b).length ≤ f := by
        simp only [List.cons_append, List.length_cons, List.length_append] at hf
        simp only [List.length_append]
        omega
      rw [show (x :: a') ++ old ++ b = x :: (a' ++ old ++ b) by simp]
      simp only [pyReplaceAllGo, h0, Bool.and_false, Bool.false_eq_true,
        if_false]
      rw [ih b f hf' h']
      simp

/-- Replace-all decomposition, at the level of `pyStrReplace`. -/
theorem pyStrReplace_decomp (old new a b : Str) (hold : old ≠ [])
    (h : ∀ i, i < a.length → old.isPrefixOf ((a ++ old ++ b).drop i) = false) :
    pyStrReplace (a ++ old ++ b) old new
      = a ++ new ++ pyStrReplace b old new := by
  have holdE : old.isEmpty = false := by simpa [List.isEmpty_iff] using hold
  unfold pyStrReplace
  simp only [holdE, Bool.false_eq_true, if_false]
  exact pyReplaceAllGo_decomp old new hold a b (a ++ old ++ b).length
    (Nat.le_refl _) h

/-- A newline-free non-empty key matches `(.+)$` and is captured whole. -/
theorem matchKeyDollar_of_no_newline {key : Str} (h1 : key ≠ [])
    (h2 : '\n' ∉ key) : matchKeyDollar key = some key := by
  have hall : ∀ x ∈ key, (x != '\n') = true := by
    intro x hx
    simp only [bne_iff_ne, ne_eq]
    rintro rfl
    exact h2 hx
  have ht : key.takeWhile (fun d => d != '\n') = key :=
    List.takeWhile_eq_self_iff.mpr hall
  have hd : key.dropWhile (fun d => d != '\n') = [] :=
    List.dropWhile_eq_nil_iff.mpr hall
  unfold matchKeyDollar
  rw [ht, hd]
  simp [h1]

/-- A non-empty newline-free prefix with one trailing newline also
matches `(.+)$` (Python `$` matches before a final newline); the capture
drops the newline. -/
theorem matchKeyDollar_of_trailing {p : Str} (h1 : p ≠ []) (h2 : '\n' ∉ p) :
    matchKeyDollar (p ++ ['\n']) = some p := by
  have hall : ∀ x ∈ p, (x != '\n') = true := by
    intro x hx
    simp only [bne_iff_ne, ne_eq]
    rintro rfl
    exact h2 hx
  have hsplit := takeWhile_append_of_sat (p := fun d => d != '\n') p
    (y := '\n') [] hall (by simp)
  unfold matchKeyDollar
  rw [hsplit.1, hsplit.2]
  simp [h1]

/-- Computation of `matchPathStyle` on a decomposed path-style URI. -/
theorem matchPathStyle_construct (c : Char) (bucket key k : Str)
    (hc : c = 's' ∨ c = 'S')
    (hb : bucket ≠ []) (hbc : ∀ x ∈ bucket, bucketChar x = true)
    (hkey : matchKeyDollar key = some k) :
    matchPathStyle (c :: '3' :: ':' :: '/' :: '/' :: (bucket ++ '/' :: key))
      = some (bucket, k) := by
  have hsplit := takeWhile_append_of_sat (p := bucketChar) bucket
    (y := '/') key hbc (by simp [bucketChar])
  have hbe : bucket.isEmpty = false := by simpa [List.isEmpty_iff] using hb
  rcases hc with rfl | rfl <;>
    (simp only [matchPathStyle]
     rw [hsplit.1, hsplit.2]
     simp [hbe, hkey])

/-- Counterexample to C1 as stated: the round trip breaks for the
slash-free bucket `a.b` (the parser rejects dotted buckets), for a
segment holding an interior newline (Python `.` does not match `\n`),
and for a segment with a trailing newline (Python `$` matches before it,
so the parsed key drops it). -/
theorem c1_roundtrip_counterexample :
    (construct_s3_uri "a.b".data ["x".data, "y".data]
        = Except.ok "s3://a.b/x/y".data
      ∧ parse_s3_uri "s3://a.b/x/y".data
        = Except.error "Not a valid S3 uri: s3://a.b/x/y".data)
    ∧ (construct_s3_uri "b".data ["x\ny".data, "z".data]
        = Except.ok "s3://b/x\ny/z".data
      ∧ parse_s3_uri "s3://b/x\ny/z".data
        = Except.error "Not a valid S3 uri: s3://b/x\ny/z".data)
    ∧ (construct_s3_uri "b".data ["x".data, "z\n".data]
        = Except.ok "s3://b/x/z\n".data
      ∧ parse_s3_uri "s3://b/x/z\n".data = Except.ok ("b".data, "x/z".data)
      ∧ "x/z".data ≠ "x".data ++ '/' :: "z\n".data) :=
  ⟨⟨by rfl, by rfl⟩, ⟨by rfl, by rfl⟩, ⟨by rfl, by rfl, by decide⟩⟩

/-- C1 amended: the round trip
`parse_s3_uri (construct_s3_uri bucket seg1 seg2) = ok (bucket, seg1 ++ "/" ++ seg2)`
holds for every non-empty bucket containing neither `/` nor `.` and all
non-empty segments containing no newline. -/
theorem c1_roundtrip_amended (bucket s1 s2 : Str)
    (hb : bucket ≠ []) (hb1 : '/' ∉ bucket) (hb2 : '.' ∉ bucket)
    (h1 : s1 ≠ []) (h1n : '\n' ∉ s1) (h2 : s2 ≠ []) (h2n : '\n' ∉ s2) :
    construct_s3_uri bucket [s1, s2]
      = Except.ok ("s3://".data ++ bucket ++ '/' :: (s1 ++ '/' :: s2))
    ∧ parse_s3_uri ("s3://".data ++ bucket ++ '/' :: (s1 ++ '/' :: s2))
      = Except.ok (bucket, s1 ++ '/' :: s2) := by
  constructor
  · simp [construct_s3_uri, pyJoin]
  · have hkey : matchKeyDollar (s1 ++ '/' :: s2) = some (s1 ++ '/' :: s2) := by
      refine matchKeyDollar_of_no_newline (by simp [h1]) ?_
      intro hmem
      rcases List.mem_append.mp hmem with hm | hm
      · exact h1n hm
      · rcases List.mem_cons.mp hm with hm' | hm'
        · cases hm'
        · exact h2n hm'
    have hbc : ∀ x ∈ bucket, bucketChar x = true := by
      intro x hx
      have hx1 : x ≠ '.' := by rintro rfl; exact hb2 hx
      have hx2 : x ≠ '/' := by rintro rfl; exact hb1 hx
      simp [bucketChar, hx1, hx2]
    have hps := matchPathStyle_construct 's' bucket (s1 ++ '/' :: s2)
      (s1 ++ '/' :: s2) (Or.inl rfl) hb hbc hkey
    have hshape : "s3://".data ++ bucket ++ '/' :: (s1 ++ '/' :: s2)
        = 's' :: '3' :: ':' :: '/' :: '/' :: (bucket ++ '/' :: (s1 ++ '/' :: s2)) := by
      rfl
    rw [hshape]
    unfold parse_s3_uri
    rw [show matchVirtualHosted
        ('s' :: '3' :: ':' :: '/' :: '/' :: (bucket ++ '/' :: (s1 ++ '/' :: s2)))
        = none from rfl]
    rw [hps]

/-- Witness for the amended C1 round trip at a concrete input. -/
theorem c1_roundtrip_amended_witness :
    construct_s3_uri "my-bucket".data ["dir".data, "key.txt".data]
      = Except.ok ("s3://".data ++ "my-bucket".data
          ++ '/' :: ("dir".data ++ '/' :: "key.txt".data))
    ∧ parse_s3_uri ("s3://".data ++ "my-bucket".data
          ++ '/' :: ("dir".data ++ '/' :: "key.txt".data))
      = Except.ok ("my-bucket".data, "dir".data ++ '/' :: "key.txt".data) :=
  c1_roundtrip_amended "my-bucket".data "dir".data "key.txt".data
    (by decide) (by decide) (by decide) (by decide) (by decide)
    (by decide) (by decide)

/-- Counterexample to C2 as stated: for the matched file
`input/input.csv` with local prefix `input` and S3 prefix `s3://b/x`,
line 444 of the source (Python `str.replace` with no count) replaces
both occurrences of `input`, producing `s3://b/x/s3://b/x.csv`, whereas
replacing only the first occurrence (as the claim states) would give
`s3://b/x/input.csv`. -/
theorem c2_upload_replace_counterexample :
    uploadRemoteUri "input".data "s3://b/x".data "input/input.csv".data
      = "s3://b/x/s3://b/x.csv".data
    ∧ pyReplaceFirst "input".data "s3://b/x".data "input/input.csv".data
      = "s3://b/x/input.csv".data
    ∧ uploadRemoteUri "input".data "s3://b/x".data "input/input.csv".data
      ≠ pyReplaceFirst "input".data "s3://b/x".data "input/input.csv".data := by
  refine ⟨by rfl, by rfl, by decide⟩

/-- C2 amended: in `upload_local_data` the remote S3 URI is computed by
replacing EVERY occurrence of the local prefix (in POSIX form) in the
file's POSIX path with the s3 prefix: the first occurrence is replaced
and replacement then continues on the remainder of the path, so later
occurrences do not stay unchanged. -/
theorem c2_upload_replace_amended (localPre s3Pre a b : Str)
    (hold : localPre ≠ [])
    (h : ∀ i, i < a.length →
      localPre.isPrefixOf ((a ++ localPre ++ b).drop i) = false) :
    uploadRemoteUri localPre s3Pre (a ++ localPre ++ b)
      = a ++ s3Pre ++ pyStrReplace b localPre s3Pre := by
  unfold uploadRemoteUri
  exact pyStrReplace_decomp localPre s3Pre a b hold h

/-- Witness for the amended C2 on the counterexample's file: the tail
`/input.csv` is itself rewritten again. -/
theorem c2_upload_replace_amended_witness :
    uploadRemoteUri "input".data "s3://b/x".data
        ("".data ++ "input".data ++ "/input.csv".data)
      = "".data ++ "s3://b/x".data
          ++ pyStrReplace "/input.csv".data "input".data "s3://b/x".data := by
  exact c2_upload_replace_amended "input".data "s3://b/x".data
    "".data "/input.csv".data (by decide) (by decide)

/-- Witness for C4's invariant at a concrete successful parse. -/
theorem c4_parse_forms_and_invariant_witness :
    "my-bucket".data ≠ ([] : Str) ∧ '/' ∉ "my-bucket".data
    ∧ "my/key".data ≠ ([] : Str) :=
  c4_parse_forms_and_invariant.2.2 "s3://my-bucket/my/key".data
    "my-bucket".data "my/key".data (by rfl)

/-- The remainders after the last `/` that the regex fragment `(.+)$`
accepts under Python semantics: a non-empty string that either holds no
newline, or consists of a non-empty newline-free part followed by one
single trailing newline. -/
def goodKey (r : Str) : Prop :=
  r ≠ [] ∧ ('\n' ∉ r ∨ ∃ p, p ≠ [] ∧ '\n' ∉ p ∧ r = p ++ ['\n'])

/-- The path-style form exactly as the claim words it:
`s3://<bucket>/<key>` with a case-insensitive scheme token, a non-empty
bucket without `.` or `/`, and a non-empty key. -/
def pathStyleFormAsClaimed (s : Str) : Prop :=
  ∃ (c : Char) (bucket key : Str), (c = 's' ∨ c = 'S') ∧ bucket ≠ []
    ∧ '.' ∉ bucket ∧ '/' ∉ bucket ∧ key ≠ []
    ∧ s = c :: '3' :: ':' :: '/' :: '/' :: (bucket ++ '/' :: key)

/-- The path-style form with the key condition the code actually
enforces (`goodKey`). -/
def pathStyleForm (s : Str) : Prop :=
  ∃ (c : Char) (bucket key : Str), (c = 's' ∨ c = 'S') ∧ bucket ≠ []
    ∧ '.' ∉ bucket ∧ '/' ∉ bucket ∧ goodKey key
    ∧ s = c :: '3' :: ':' :: '/' :: '/' :: (bucket ++ '/' :: key)

/-- The virtual-hosted form
`https://<bucket>.s3.<anything-without-slash>/<key>` with a
case-insensitive `s3` token, a non-empty bucket without `.` or `/`, a
non-empty slash-free region part, and the key condition the code
actually enforces (`goodKey`). -/
def virtualHostedForm (s : Str) : Prop :=
  ∃ (c : Char) (bucket region key : Str), (c = 's' ∨ c = 'S') ∧ bucket ≠ []
    ∧ '.' ∉ bucket ∧ '/' ∉ bucket ∧ region ≠ [] ∧ '/' ∉ region ∧ goodKey key
    ∧ s = "https://".data ++ bucket
        ++ '.' :: c :: '3' :: '.' :: (region ++ '/' :: key)

/-- A successful `(.+)$` match means the remainder was a good key. -/
theorem goodKey_of_matchKeyDollar {r k : Str} (h : matchKeyDollar r = some k) :
    goodKey r := by
  unfold matchKeyDollar at h
  split_ifs at h with hp
  have hne : r ≠ [] := by
    rintro rfl
    simp at hp
  split at h
  · rename_i hd
    refine ⟨hne, Or.inl ?_⟩
    intro hmem
    have := List.dropWhile_eq_nil_iff.mp hd '\n' hmem
    simp at this
  · rename_i hd
    refine ⟨hne, Or.inr ⟨r.takeWhile (fun d => d != '\n'), by simpa using hp,
      ?_, ?_⟩⟩
    · intro hmem
      have := List.mem_takeWhile_imp hmem
      simp at this
    · conv_lhs => rw [← List.takeWhile_append_dropWhile
        (p := fun d => d != '\n') (l := r)]
      rw [hd]
  · cases h

/-- A good key always matches `(.+)$`. -/
theorem matchKeyDollar_of_goodKey {r : Str} (h : goodKey r) :
    ∃ k, matchKeyDollar r = some k := by
  obtain ⟨hne, hc⟩ := h
  rcases hc with hno | ⟨p, hp1, hp2, rfl⟩
  · exact ⟨r, matchKeyDollar_of_no_newline hne hno⟩
  · exact ⟨p, matchKeyDollar_of_trailing hp1 hp2⟩

/-- Inversion: a successful path-style match exhibits the path form. -/
theorem matchPathStyle_some_shape {s : Str} {bk : Str × Str}
    (h : matchPathStyle s = some bk) : pathStyleForm s := by
  unfold matchPathStyle at h
  split at h
  · rename_i c r1
    split_ifs at h with hc hb
    split at h
    · rename_i r2 heq2
      split at h
      · rename_i k' hkey
        have hcs : c = 's' ∨ c = 'S' := by simpa using hc
        have hr1 : r1 = r1.takeWhile bucketChar ++ '/' :: r2 := by
          conv_lhs => rw [← List.takeWhile_append_dropWhile
            (p := bucketChar) (l := r1)]
          rw [heq2]
        refine ⟨c, r1.takeWhile bucketChar, r2, hcs, by simpa using hb,
          ?_, ?_, goodKey_of_matchKeyDollar hkey, by rw [← hr1]⟩
        · intro hmem
          have := List.mem_takeWhile_imp hmem
          simp [bucketChar] at this
        · intro hmem
          have := List.mem_takeWhile_imp hmem
          simp [bucketChar] at this
      · cases h
    · cases h
  · cases h

/-- Inversion: a successful virtual-hosted match exhibits the
virtual-hosted form. -/
theorem matchVirtualHosted_some_shape {s : Str} {bk : Str × Str}
    (h : matchVirtualHosted s = some bk) : virtualHostedForm s := by
  unfold matchVirtualHosted at h
  split at h
  · rename_i r1
    split_ifs at h with hb
    split at h
    · rename_i c r3 heq2
      split_ifs at h with hc hr
      split at h
      · rename_i r4 heq3
        split at h
        · rename_i k' hkey
          have hcs : c = 's' ∨ c = 'S' := by simpa using hc
          have hr3 : r3 = r3.takeWhile (fun d => d != '/') ++ '/' :: r4 := by
            conv_lhs => rw [← List.takeWhile_append_dropWhile
              (p := fun d => d != '/') (l := r3)]
            rw [heq3]
          have hr1 : r1 = r1.takeWhile bucketChar
              ++ '.' :: c :: '3' :: '.' :: r3 := by
            conv_lhs => rw [← List.takeWhile_append_dropWhile
              (p := bucketChar) (l := r1)]
            rw [heq2]
          refine ⟨c, r1.takeWhile bucketChar,
            r3.takeWhile (fun d => d != '/'), r4, hcs, by simpa using hb,
            ?_, ?_, by simpa using hr, ?_,
            goodKey_of_matchKeyDollar hkey, ?_⟩
          · intro hmem
            have := List.mem_takeWhile_imp hmem
            simp [bucketChar] at this
          · intro hmem
            have := List.mem_takeWhile_imp hmem
            simp [bucketChar] at this
          · intro hmem
            have := List.mem_takeWhile_imp hmem
            simp at this
          · rw [← hr3, List.append_assoc, ← hr1]
            rfl
        · cases h
      · cases h
    · cases h
  · cases h

/-- Computation of `matchVirtualHosted` on a decomposed virtual-hosted
URI. -/
theorem matchVirtualHosted_construct (c : Char) (bucket region key k : Str)
    (hc : c = 's' ∨ c = 'S') (hb : bucket ≠ [])
    (hbc : ∀ x ∈ bucket, bucketChar x = true)
    (hr : region ≠ []) (hrc : ∀ x ∈ region, (x != '/') = true)
    (hkey : matchKeyDollar key = some k) :
    matchVirtualHosted ("https://".data ++ bucket
        ++ '.' :: c :: '3' :: '.' :: (region ++ '/' :: key))
      = some (bucket, k) := by
  have hsplit1 := takeWhile_append_of_sat (p := bucketChar) bucket
    (y := '.') (c :: '3' :: '.' :: (region ++ '/' :: key)) hbc
    (by simp [bucketChar])
  have hsplit2 := takeWhile_append_of_sat (p := fun d => d != '/') region
    (y := '/') key hrc (by simp)
  have hbe : bucket.isEmpty = false := by simpa [List.isEmpty_iff] using hb
  have hre : region.isEmpty = false := by simpa [List.isEmpty_iff] using hr
  rw [show "https://".data ++ bucket
      ++ '.' :: c :: '3' :: '.' :: (region ++ '/' :: key)
      = 'h' :: 't' :: 't' :: 'p' :: 's' :: ':' :: '/' :: '/'
          :: (bucket ++ '.' :: c :: '3' :: '.' :: (region ++ '/' :: key))
    from rfl]
  rcases hc with rfl | rfl <;>
    (simp only [matchVirtualHosted]
     rw [hsplit1.1, hsplit1.2]
     simp [hbe, hre, hsplit2.1, hsplit2.2, hkey])

/-- The path-style regex succeeds exactly on strings of path form. -/
theorem matchPathStyle_some_iff (s : Str) :
    (∃ r, matchPathStyle s = some r) ↔ pathStyleForm s := by
  constructor
  · rintro ⟨r, h⟩
    exact matchPathStyle_some_shape h
  · rintro ⟨c, bucket, key, hc, hb, hbd, hbs, hk, rfl⟩
    obtain ⟨k, hkey⟩ := matchKeyDollar_of_goodKey hk
    have hbc : ∀ x ∈ bucket, bucketChar x = true := by
      intro x hx
      have hx1 : x ≠ '.' := by rintro rfl; exact hbd hx
      have hx2 : x ≠ '/' := by rintro rfl; exact hbs hx
      simp [bucketChar, hx1, hx2]
    exact ⟨(bucket, k), matchPathStyle_construct c bucket key k hc hb hbc hkey⟩

/-- The virtual-hosted regex succeeds exactly on strings of
virtual-hosted form. -/
theorem matchVirtualHosted_some_iff (s : Str) :
    (∃ r, matchVirtualHosted s = some r) ↔ virtualHostedForm s := by
  constructor
  · rintro ⟨r, h⟩
    exact matchVirtualHosted_some_shape h
  · rintro ⟨c, bucket, region, key, hc, hb, hbd, hbs, hr, hrs, hk, rfl⟩
    obtain ⟨k, hkey⟩ := matchKeyDollar_of_goodKey hk
    have hbc : ∀ x ∈ bucket, bucketChar x = true := by
      intro x hx
      have hx1 : x ≠ '.' := by rintro rfl; exact hbd hx
      have hx2 : x ≠ '/' := by rintro rfl; exact hbs hx
      simp [bucketChar, hx1, hx2]
    have hrc : ∀ x ∈ region, (x != '/') = true := by
      intro x hx
      simp only [bne_iff_ne, ne_eq]
      rintro rfl
      exact hrs hx
    exact ⟨(bucket, k),
      matchVirtualHosted_construct c bucket region key k hc hb hbc hr hrc hkey⟩

/-- Counterexample to C5 as stated: `s3://b/\nx` matches the claimed
path form (scheme `s3`, bucket `b` without `.` or `/`, non-empty key
`\nx`), yet `parse_s3_uri` rejects it, because Python `.` in `(.+)$`
cannot match the leading newline of the key. -/
theorem c5_parse_failure_counterexample :
    pathStyleFormAsClaimed "s3://b/\nx".data
    ∧ parse_s3_uri "s3://b/\nx".data
        = Except.error "Not a valid S3 uri: s3://b/\nx".data :=
  ⟨⟨'s', "b".data, "\nx".data, Or.inl rfl, by decide, by decide, by decide,
    by decide, by rfl⟩, by rfl⟩

/-- C5 amended: `parse_s3_uri` fails with the invalid-URI `ValueError`
exactly when the input matches neither the virtual-hosted form
`https://<bucket>.s3.<anything-without-slash>/<key>` nor the path form
`s3://<bucket>/<key>` (case-insensitive on the `s3` token, bucket
non-empty without `.` or `/`), where the key part must additionally
start with a non-newline character and may hold a newline only as a
single final character; in particular it fails on `not-a-uri` and on
dotted buckets in either form. -/
theorem c5_parse_failure_amended (s : Str) :
    parse_s3_uri s = Except.error ("Not a valid S3 uri: ".data ++ s)
      ↔ ¬ virtualHostedForm s ∧ ¬ pathStyleForm s := by
  rw [← matchVirtualHosted_some_iff, ← matchPathStyle_some_iff]
  unfold parse_s3_uri
  cases hv : matchVirtualHosted s with
  | some bk => simp
  | none =>
    cases hp : matchPathStyle s with
    | some bk => simp
    | none => simp
